import Mathlib

/-!
Shallow embedding of the aush command-runner (src/aush.py) and the parts of
src/autoshell.py the claims reference.  Python values that appear as keyword
arguments, option values and environment entries are modelled by `PyVal`;
Python dicts (insertion ordered, unique keys) are modelled by association
lists together with the dict operations the source uses (`get`, `|` merge,
key update, key removal).
-/

namespace Aush

/-- Model of the Python values flowing through aush: option values, keyword
arguments, environment overlays, and the stdio sentinels (`PIPE`, stream
objects attached to a spawned process). -/
inductive PyVal : Type where
  | bool (b : Bool)
  | int (n : Int)
  | str (s : String)
  | none
  | list (vs : List PyVal)
  | pipe
  | stream (tag : String)
  | envMap (m : List (String × PyVal))

/-- Python dict with string keys, in insertion order. -/
abbrev Dict := List (String × PyVal)

/-- Python `d.get(k)` / `d[k]`: first entry with the key. -/
def dget? (d : Dict) (k : String) : Option PyVal :=
  (d.find? (fun e => e.1 == k)).map (fun e => e.2)

/-- Python `k in d`. -/
def dhas (d : Dict) (k : String) : Bool :=
  d.any (fun e => e.1 == k)

/-- Python `a | b` on dicts: keys of `a` in order (values taken from `b` on
collision), then the keys of `b` not present in `a`, in order. -/
def dmerge (a b : Dict) : Dict :=
  a.map (fun e => (e.1, (dget? b e.1).getD e.2))
    ++ b.filter (fun e => !(dhas a e.1))

/-- Python `d[k] = v` for a key already present: the value is updated in
place, insertion order kept. -/
def dset (d : Dict) (k : String) (v : PyVal) : Dict :=
  d.map (fun e => if e.1 == k then (e.1, v) else e)

/-- Removal of a key (models capturing `_check` as a keyword-only
parameter, which leaves the remaining `**kwargs` without it). -/
def dremove (d : Dict) (k : String) : Dict :=
  d.filter (fun e => !(e.1 == k))

/-- Python `repr`.  Strings are quoted, containers render their elements;
scalars coincide with `str`. -/
def pyRepr : PyVal → String
  | .bool true => "True"
  | .bool false => "False"
  | .int n => toString n
  | .str s => "\x27" ++ s ++ "\x27"
  | .none => "None"
  | .pipe => "-1"
  | .stream tag => "<stream " ++ tag ++ ">"
  | .list vs => "[" ++ String.intercalate ", " (vs.attach.map (fun x => pyRepr x.1)) ++ "]"
  | .envMap m =>
      "\x7b" ++ String.intercalate ", "
        (m.attach.map (fun x => "\x27" ++ x.1.1 ++ "\x27: " ++ pyRepr x.1.2)) ++ "\x7d"
decreasing_by
  · have h := List.sizeOf_lt_of_mem x.2
    simp only [PyVal.list.sizeOf_spec]
    omega
  · obtain ⟨⟨k, v⟩, hmem⟩ := x
    have h := List.sizeOf_lt_of_mem hmem
    simp only [Prod.mk.sizeOf_spec] at h
    simp only [PyVal.envMap.sizeOf_spec]
    omega

/-- Python `str(v)`: identical to `repr` except on strings, which render
unquoted. -/
def pyStr : PyVal → String
  | .bool true => "True"
  | .bool false => "False"
  | .int n => toString n
  | .str s => s
  | .none => "None"
  | .pipe => "-1"
  | .stream tag => "<stream " ++ tag ++ ">"
  | .list vs => pyRepr (.list vs)
  | .envMap m => pyRepr (.envMap m)

/-- Python truthiness for the modelled values. -/
def pyTruthy : PyVal → Bool
  | .bool b => b
  | .int n => n != 0
  | .str s => s.length != 0
  | .none => false
  | .list vs => !vs.isEmpty
  | .pipe => true
  | .stream _ => true
  | .envMap m => !m.isEmpty

/-- Python `v is True`: only the boolean `True` itself. -/
def isTrueLit : PyVal → Bool
  | .bool true => true
  | _ => false

/-- `_nonstriterable` of the source: an iterable that is not a string
(lists and dicts in the model; strings are excluded by the isinstance test). -/
def nonstriterable : PyVal → Bool
  | .list _ => true
  | .envMap _ => true
  | _ => false

/-- `_listify` of the source: a non-string iterable is kept (a dict iterates
over its keys), anything else is wrapped in a singleton list. -/
def listify (v : PyVal) : List PyVal :=
  match v with
  | .list vs => vs
  | .envMap m => m.map (fun e => PyVal.str e.1)
  | _ => [v]

/-- Python `k.replace` of each underscore by a dash (single character
replacement, so a plain character map). -/
def dashify (k : String) : String :=
  String.mk (k.data.map (fun c => if c == '_' then '-' else c))

/-- Python `k.startswith` with the underscore marker: the reserved-key test
of `_convert_kwargs`. -/
def underscoreKey (k : String) : Bool :=
  match k.data with
  | c :: _ => c == '_'
  | [] => false

/-- The flag token of `_convert_kwargs`:
`'-' * min(len(k), 2)` followed by the key with underscores turned into
dashes. -/
def normKey (k : String) : String :=
  String.mk (List.replicate (min k.length 2) '-') ++ dashify k

/-- The argv tokens one non-reserved keyword produces: for each listified
value, the flag token alone when the value is the literal `True`, otherwise
the flag token followed by the stringified value. -/
def entryTokens (k : String) (vs : PyVal) : List String :=
  let key := normKey k
  (listify vs).foldl
    (fun acc v => if isTrueLit v then acc ++ [key] else acc ++ [key, pyStr v]) []

/-- One step of the `_convert_kwargs` loop: a reserved (underscore-marked)
key is routed, minus the marker, to the subprocess keyword arguments;
any other key contributes its argv tokens. -/
def convStep (acc : List String × Dict) (e : String × PyVal) : List String × Dict :=
  if underscoreKey e.1 then (acc.1, acc.2 ++ [(e.1.drop 1, e.2)])
  else (acc.1 ++ entryTokens e.1 e.2, acc.2)

/-- `_convert_kwargs` of the source: fold the loop over the keyword mapping
in insertion order, producing argv tokens and pass-through subprocess
keyword arguments. -/
def convertKwargs (kwargs : Dict) : List String × Dict :=
  kwargs.foldl convStep ([], [])

/-- `Command._default_kwargs`: both output streams captured via pipes. -/
def defaultKwargs : Dict := [("_stdout", PyVal.pipe), ("_stderr", PyVal.pipe)]

/-- The descriptor built by `Command.__init__`: program name (head of the
argv), the `_check` directive (a keyword-only parameter, default `True`),
the retained keyword mapping, the accumulated argv tokens, and the
subprocess keyword arguments derived from the defaults merged with the
keyword mapping. -/
structure Command where
  name : Option String
  check : PyVal
  kwargs : Dict
  command : List String
  subprocessKwargs : Dict

/-- `Command.__init__`: extract `_check` (default `True`), keep the other
keywords, run `_convert_kwargs` over the defaults merged with them, and
store the positional tokens followed by the converted argv tokens.
The source raises when `args` is empty; the model records the missing name
as `none`. -/
def mkCommand (args : List String) (kw : Dict) : Command :=
  let check := (dget? kw "_check").getD (PyVal.bool true)
  let kwargs := dremove kw "_check"
  let conv := convertKwargs (dmerge defaultKwargs kwargs)
  { name := args.head?
  , check := check
  , kwargs := kwargs
  , command := args ++ conv.1
  , subprocessKwargs := conv.2 }

/-- `Command.__getitem__` with a string key: a new `Command` over the
current argv plus the key, passing `_check` explicitly and the retained
keywords again. -/
def getitemStr (c : Command) (k : String) : Command :=
  mkCommand (c.command ++ [k]) (("_check", c.check) :: c.kwargs)

/-- `Command.__getattr__`: attribute access with underscores dashed, then
indexing. -/
def getattrCmd (c : Command) (nm : String) : Command :=
  getitemStr c (dashify nm)

/-- `Command._bake`: a new `Command` over the current argv plus the extra
positional tokens, with the retained keywords dict-merged under the
call-time ones. -/
def bake (c : Command) (args : List String) (kw : Dict) : Command :=
  mkCommand (c.command ++ args) (dmerge c.kwargs kw)

/-- The `os.environ | ... str(v) ...` merge of `Command.__call__`: the
inherited process environment, updated and extended by the stringified
call-time overlay. -/
def pyEnvMerge (osenv : List (String × String)) (m : Dict) : Dict :=
  dmerge (osenv.map (fun e => (e.1, PyVal.str e.2)))
    (m.map (fun e => (e.1, PyVal.str (pyStr e.2))))

/-- The `_env` handling of `Command.__call__`: when a truthy `_env` overlay
was supplied it is replaced by the inherited environment merged with its
stringified entries.  A truthy non-mapping `_env` makes the source raise on
`.items()` and is left untouched here; no claim exercises it. -/
def envTransform (kw : Dict) (osenv : List (String × String)) : Dict :=
  match dget? kw "_env" with
  | some v =>
      if pyTruthy v then
        match v with
        | .envMap m => dset kw "_env" (PyVal.envMap (pyEnvMerge osenv m))
        | _ => kw
      else kw
  | Option.none => kw

/-- `Command.__call__` up to the descriptor it spawns: transform `_env`,
then bake the positional arguments and keywords onto the descriptor. -/
def callCmd (c : Command) (args : List String) (kw : Dict)
    (osenv : List (String × String)) : Command :=
  bake c args (envTransform kw osenv)

/-- The fully resolved argv an invocation passes to the executor
(`_run` maps `str` over it; the model already stores strings). -/
def invokeArgv (c : Command) (args : List String) (kw : Dict)
    (osenv : List (String × String)) : List String :=
  (callCmd c args kw osenv).command

/-- The `env` keyword handed to `create_subprocess_exec` by an invocation. -/
def spawnEnv (c : Command) (args : List String) (kw : Dict)
    (osenv : List (String × String)) : Option PyVal :=
  dget? (callCmd c args kw osenv).subprocessKwargs "env"

/-- One deterministic run of a program: the exit status it will report and
the bytes it writes to its two output streams (modelled as text). -/
structure ProcBehavior where
  exitCode : Int
  stdoutData : String
  stderrData : String

/-- The exception `Result.__init__` raises on a checked non-zero exit:
`Exception(f"...repr of the command... returned non-zero exit status ...")`,
carrying the exit status and the resolved command as its description. -/
structure ExecError where
  code : Int
  command : List String
  deriving DecidableEq

/-- The state a `Result` owns: the process's eventual exit status, the
observed `returncode` (set once `wait` has run, `none` before), and the two
buffers its stream pumps filled. -/
structure ResultState where
  exitCode : Int
  returncode : Option Int
  stdoutBuf : String
  stderrBuf : String
  deriving DecidableEq

/-- `Result.__init__`: spawn the process, concurrently drain both output
streams into the buffers, then — only when the descriptor's `_check` is
truthy — read `self.code` (which waits, fixing `returncode`) and raise on a
non-zero status.  With `_check` falsy the code is not read and `returncode`
stays unset. -/
def runCommand (c : Command) (p : ProcBehavior) : Except ExecError ResultState :=
  if pyTruthy c.check && !(p.exitCode == 0) then
    Except.error { code := p.exitCode, command := c.command }
  else
    Except.ok
      { exitCode := p.exitCode
      , returncode := if pyTruthy c.check then some p.exitCode else Option.none
      , stdoutBuf := p.stdoutData
      , stderrBuf := p.stderrData }

/-- `Result.finished`: the `returncode` has been observed. -/
def finished (r : ResultState) : Bool :=
  r.returncode.isSome

/-- `Result.wait`: a no-op once finished, otherwise block until the process
exits and record its status. -/
def waitR (r : ResultState) : ResultState :=
  if finished r then r else { r with returncode := some r.exitCode }

/-- The `Result.code` property: wait, then return the recorded status,
together with the state the access leaves behind. -/
def codeProp (r : ResultState) : Option Int × ResultState :=
  let r2 := waitR r
  (r2.returncode, r2)

/-- The `Result.stdout` property: wait, then return the output buffer. -/
def stdoutProp (r : ResultState) : String × ResultState :=
  let r2 := waitR r
  (r2.stdoutBuf, r2)

/-- The `Result.stderr` property: wait, then return the error buffer. -/
def stderrProp (r : ResultState) : String × ResultState :=
  let r2 := waitR r
  (r2.stderrBuf, r2)

/-- Python whitespace as stripped by `str.strip()` (ASCII portion). -/
def pyIsSpaceChar (c : Char) : Bool :=
  c == ' ' || c == '\t' || c == '\n' || c == '\r' || c == '\x0b' || c == '\x0c'

/-- Python `s.strip()`: remove every leading and trailing whitespace
character. -/
def pyStrip (s : String) : String :=
  String.mk (((s.data.dropWhile pyIsSpaceChar).reverse.dropWhile pyIsSpaceChar).reverse)

/-- `Result.__str__`: the decoded output buffer with `str.strip()` applied
(decoding is the identity in the text model). -/
def resultStr (r : ResultState) : String :=
  pyStrip (stdoutProp r).1

/-- Modelled from the spec: the text accessor the claim describes, which
strips only a trailing line terminator from the decoded output and removes
nothing else.  (`asText` of the spec; the source instead uses
`str.strip()`.) -/
def claimText (s : String) : String :=
  match s.data.getLast? with
  | some c => if c == '\n' then String.mk s.data.dropLast else s
  | Option.none => s

/-- The stdio attributes `create_subprocess_exec` leaves on the process
object: `stdin`/`stdout` are stream endpoints only when the corresponding
keyword was `PIPE`, otherwise `None`. -/
structure ProcHandles where
  stdinH : PyVal
  stdoutH : PyVal

/-- Test for the `PIPE` sentinel in a subprocess keyword. -/
def isPipeVal : Option PyVal → Bool
  | some PyVal.pipe => true
  | _ => false

/-- The process object of one spawn: its `stdin` attribute is a stream only
when `stdin=PIPE` was passed, and likewise for `stdout`. -/
def spawnHandles (c : Command) : ProcHandles :=
  { stdinH :=
      if isPipeVal (dget? c.subprocessKwargs "stdin") then PyVal.stream "child-stdin"
      else PyVal.none
  , stdoutH :=
      if isPipeVal (dget? c.subprocessKwargs "stdout") then PyVal.stream "child-stdout"
      else PyVal.none }

/-- `Pipeline.__call__` on an unexecuted left `Command`:
`result = self.left(_check=False)` (which runs the left process to
completion, its output drained into the host buffer), then
`self.right(_stdin=result._process.stdin)` — the value wired into the right
command's stdin is the left process's `stdin` attribute. -/
def pipelineInvoke (left right : Command)
    (osenv : List (String × String)) : Command × Command :=
  let leftCmd := callCmd left [] [("_check", PyVal.bool false)] osenv
  let rightCmd :=
    callCmd right [] [("_stdin", (spawnHandles leftCmd).stdinH)] osenv
  (leftCmd, rightCmd)

/-- The value `Pipeline.__call__` passes as the right command's `_stdin`. -/
def pipelineStdinArg (left : Command) (osenv : List (String × String)) : PyVal :=
  (spawnHandles (callCmd left [] [("_check", PyVal.bool false)] osenv)).stdinH

/-- What the right process of a pipeline reads and hence writes, for a
deterministic right program `f` mapping its standard input to its output:
a `stdin` bound to the left child's stdout pipe delivers the left output;
`stdin=None` (or no `stdin` keyword) inherits the host's standard input;
an unconnected pipe delivers nothing. -/
def rightOutput (rightCmd : Command) (f : Option String → String)
    (hostStdin leftOut : String) : String :=
  match dget? rightCmd.subprocessKwargs "stdin" with
  | some (PyVal.stream tag) =>
      if tag == "child-stdout" then f (some leftOut) else f Option.none
  | some PyVal.pipe => f Option.none
  | _ => f (some hostStdin)

/-- End-to-end output of `Pipeline.__call__` over two descriptors, given the
left process's output and the right program's behaviour. -/
def pipelineOutput (left right : Command) (osenv : List (String × String))
    (f : Option String → String) (hostStdin leftOut : String) : String :=
  rightOutput (pipelineInvoke left right osenv).2 f hostStdin leftOut

/-- The behaviour of `cat`: echo standard input; nothing to read, nothing
written. -/
def catBehavior : Option String → String :=
  fun i => i.getD ""

/-- Python `str.isupper` (ASCII): at least one cased character and no cased
character in lower case. -/
def pyIsUpper (s : String) : Bool :=
  s.data.any (fun c => c.isAlpha) && s.data.all (fun c => !c.isAlpha || c.isUpper)

/-- The uppercase module-level names of src/aush.py that a namespace lookup
can resolve. -/
def upperGlobals : List String :=
  ["READ_CHUNK_LENGTH", "RESET", "HEX_RE", "INLINE_HEX_RE", "PIPE", "D", "COLORS"]

/-- The outcomes of `_AushModule.__getitem__`. -/
inductive Lookup : Type where
  | moduleGlobal (nm : String)
  | importError (nm : String)
  | chdirBuiltin
  | command (c : Command)

/-- `_AushModule.__getitem__`: an all-uppercase name resolves among the
module globals or raises `ImportError`; the reserved name `cd` returns
`os.chdir` (an in-process working-directory change, no subprocess); any
other name builds a `Command` for that program. -/
def aushGetitem (nm : String) : Lookup :=
  if pyIsUpper nm then
    if upperGlobals.contains nm then Lookup.moduleGlobal nm
    else Lookup.importError nm
  else if nm == "cd" then Lookup.chdirBuiltin
  else Lookup.command (mkCommand [nm] [])

/-- Whether a lookup produced a command descriptor. -/
def isCommandLookup : Lookup → Bool
  | Lookup.command _ => true
  | _ => false

/-- Modelled from the spec: the flag-prefixing rule as the claim states it —
dash-normalize, then a single dash for a normalized key of at most two
characters, two dashes for a longer one. -/
def claimNormKey (k : String) : String :=
  let nk := dashify k
  (if nk.length ≤ 2 then "-" else "--") ++ nk

/-- Modelled from the spec: the environment the claim says a call-time
overlay produces — inherited environment, then the baked-in overlay, then
the call-time overlay, later entries winning. -/
def claimEnvUnion (osenv : List (String × String)) (baked calltime : Dict) : Dict :=
  dmerge (dmerge (osenv.map (fun e => (e.1, PyVal.str e.2)))
      (baked.map (fun e => (e.1, PyVal.str (pyStr e.2)))))
    (calltime.map (fun e => (e.1, PyVal.str (pyStr e.2))))

/-- Lookup inside an optional environment mapping. -/
def envGet (v : Option PyVal) (k : String) : Option PyVal :=
  match v with
  | some (PyVal.envMap m) => dget? m k
  | _ => Option.none

/-- Whether the first character of a string is Python whitespace. -/
def startsWithSpace (s : String) : Bool :=
  match s.data with
  | c :: _ => pyIsSpaceChar c
  | [] => false

/-- Whether the last character of a string is Python whitespace. -/
def endsWithSpace (s : String) : Bool :=
  match s.data.getLast? with
  | some c => pyIsSpaceChar c
  | Option.none => false

/-- The non-reserved (no underscore marker) entries of a keyword mapping:
the part of the mapping that can contribute argv tokens. -/
def nonReservedOf (l : Dict) : Dict :=
  l.filter (fun e => !underscoreKey e.1)

lemma listify_of_not_iterable (v : PyVal) (h : nonstriterable v = false) :
    listify v = [v] := by
  cases v <;> simp_all [nonstriterable, listify]

/-- Claim C10: a non-reserved option whose value is neither the literal
`True` nor a non-string iterable — `False` and `None` included — makes the
translator emit the flag token followed by the stringified value; only the
exact `True` yields a presence-only flag. -/
theorem non_true_scalar_emits_key_and_value (k : String) (v : PyVal)
    (h1 : underscoreKey k = false) (h2 : isTrueLit v = false)
    (h3 : nonstriterable v = false) :
    (convertKwargs [(k, v)]).1 = [normKey k, pyStr v] := by
  simp [convertKwargs, convStep, entryTokens, h1, h2, listify_of_not_iterable v h3]

/-- Witness for C10 at the key `foo` and the value `False`: the emitted
tokens are the long flag and the stringified boolean. -/
theorem non_true_scalar_emits_key_and_value_witness :
    (convertKwargs [("foo", PyVal.bool false)]).1 = ["--foo", "False"] := by
  have h := non_true_scalar_emits_key_and_value "foo" (PyVal.bool false) rfl rfl rfl
  exact h.trans (by decide)

/-- Counterexample for C3: the source computes the dash run as
`min(len(key), 2)`, so the two-character key `ab` receives two dashes,
while the claim's rule (a single dash for keys of at most two characters)
would give it one. -/
theorem flag_dash_count_counterexample :
    normKey "ab" = "--ab" ∧ claimNormKey "ab" = "-ab"
      ∧ normKey "ab" ≠ claimNormKey "ab" := by
  refine ⟨by decide, by decide, by decide⟩

/-- Claim C3 as amended: underscores become dashes, and the flag gets a
single dash exactly when the key is one character long; keys of two or more
characters get two dashes. -/
theorem flag_dash_count (k : String) (h : 1 ≤ k.length) :
    normKey k = (if k.length = 1 then "-" else "--") ++ dashify k := by
  unfold normKey
  rcases Nat.lt_or_ge k.length 2 with h2 | h2
  · have h1 : k.length = 1 := by omega
    rw [h1]
    norm_num
  · have hmin : min k.length 2 = 2 := Nat.min_eq_right h2
    have hne : ¬(k.length = 1) := by omega
    rw [hmin, if_neg hne]
    exact congrArg (fun x => x ++ dashify k) (by decide)

/-- Witness for C3 at the two-character key `vv`: two dashes. -/
theorem flag_dash_count_witness : normKey "vv" = "--vv" := by
  have h := flag_dash_count "vv" (by decide)
  exact h.trans (by decide)

/-- Counterexample for C1: for a checked command over a process exiting
with status 1, `Result.__init__` itself — i.e. the invocation — returns the
failure; the claim's assertion that spawning never raises and that the
failure appears only at the first accessor is false. -/
theorem check_failure_not_deferred_counterexample :
    pyTruthy (mkCommand ["false"] []).check = true
      ∧ (1 : Int) ≠ 0
      ∧ runCommand (mkCommand ["false"] []) ⟨1, "", ""⟩
          = Except.error { code := 1, command := ["false"] } := by
  refine ⟨rfl, by decide, rfl⟩

/-- Claim C1 as amended: constructing the descriptor never raises, but for
a command with a truthy check directive and a non-zero exit status the
ExecutionFailure — carrying the exit status and the resolved command as its
description — is raised eagerly by the invocation itself (inside result
construction, after the streams are drained), not deferred to the first
accessor. -/
theorem check_failure_raised_at_invocation (c : Command) (p : ProcBehavior)
    (h1 : pyTruthy c.check = true) (h2 : p.exitCode ≠ 0) :
    runCommand c p = Except.error { code := p.exitCode, command := c.command } := by
  simp [runCommand, h1, h2]

/-- Witness for C1: the checked command over an exit-status-1 process. -/
theorem check_failure_raised_at_invocation_witness :
    runCommand (mkCommand ["false"] []) ⟨1, "", ""⟩
      = Except.error { code := 1, command := ["false"] } := by
  exact check_failure_raised_at_invocation (mkCommand ["false"] []) ⟨1, "", ""⟩ rfl (by decide)

/-- Claim C2, evaluated at the failing input `echo hi | cat`: the pipeline
starts the left command with its check suppressed and its output captured
as a pipe, but then hands the right command the left process's *stdin*
attribute — which is `None`, as no input pipe was requested — so the right
process inherits the host's standard input instead of the left output pipe,
and the pipeline's output is empty rather than the left command's output. -/
theorem pipeline_wires_left_stdin_not_stdout :
    pipelineStdinArg (mkCommand ["echo", "hi"] []) [] = PyVal.none
      ∧ isPipeVal (dget? (callCmd (mkCommand ["echo", "hi"] [])
            [] [("_check", PyVal.bool false)] []).subprocessKwargs "stdout") = true
      ∧ pipelineOutput (mkCommand ["echo", "hi"] []) (mkCommand ["cat"] [])
          [] catBehavior "" "hi\n" = ""
      ∧ catBehavior (some "hi\n") = "hi\n"
      ∧ ("" : String) ≠ "hi\n" := by
  refine ⟨rfl, rfl, rfl, rfl, by decide⟩

/-- Counterexample for C4: with a baked-in overlay mapping `A` and a
call-time overlay mapping `B`, the environment actually handed to the
spawn lacks `A` entirely — the call-time overlay replaced the baked one —
while the claim's three-way union keeps `A`. -/
theorem baked_env_overlay_lost_counterexample :
    envGet (spawnEnv (mkCommand ["prog"] [("_env", PyVal.envMap [("A", PyVal.str "1")])])
        [] [("_env", PyVal.envMap [("B", PyVal.str "2")])] [("PATH", "/bin")]) "A"
      = Option.none
      ∧ envGet (some (PyVal.envMap (claimEnvUnion [("PATH", "/bin")]
          [("A", PyVal.str "1")] [("B", PyVal.str "2")]))) "A" = some (PyVal.str "1")
      ∧ envGet (spawnEnv (mkCommand ["prog"] [("_env", PyVal.envMap [("A", PyVal.str "1")])])
          [] [("_env", PyVal.envMap [("B", PyVal.str "2")])] [("PATH", "/bin")]) "B"
        = some (PyVal.str "2") := by
  refine ⟨rfl, rfl, rfl⟩

/-- Claim C4 as amended: when a call-time environment overlay is supplied,
the environment passed to the spawned process is the inherited process
environment updated by the stringified call-time overlay alone; a baked-in
overlay is replaced wholesale by the keyword merge, not merged. -/
theorem call_env_merges_os_environ_only (osenv : List (String × String))
    (eb m : Dict) (h : m ≠ []) :
    spawnEnv (mkCommand ["prog"] [("_env", PyVal.envMap eb)])
        [] [("_env", PyVal.envMap m)] osenv
      = some (PyVal.envMap (pyEnvMerge osenv m)) := by
  cases m with
  | nil => exact absurd rfl h
  | cons a t => rfl

/-- Witness for C4: baked overlay `A=1`, call-time overlay `B=2`, inherited
environment `PATH=/bin`. -/
theorem call_env_merges_os_environ_only_witness :
    spawnEnv (mkCommand ["prog"] [("_env", PyVal.envMap [("A", PyVal.str "1")])])
        [] [("_env", PyVal.envMap [("B", PyVal.str "2")])] [("PATH", "/bin")]
      = some (PyVal.envMap [("PATH", PyVal.str "/bin"), ("B", PyVal.str "2")]) := by
  exact call_env_merges_os_environ_only [("PATH", "/bin")]
    [("A", PyVal.str "1")] [("B", PyVal.str "2")] (List.cons_ne_nil _ _)

/-- Counterexample for C7: on the output bytes of a space followed by
`hello` and a newline, the text accessor yields `hello` — the leading space
is removed too — while stripping only the trailing line terminator, as the
claim describes the accessor, would keep it. -/
theorem text_form_strips_more_than_newline_counterexample :
    resultStr { exitCode := 0, returncode := some 0, stdoutBuf := " hello\n", stderrBuf := "" }
        = "hello"
      ∧ claimText " hello\n" = " hello"
      ∧ (" hello" : String) ≠ "hello" := by
  refine ⟨by decide, by decide, by decide⟩

/-- Claim C7 as amended: the text accessor strips all leading and trailing
whitespace from the decoded output (Python `str.strip`); for an output of
the form `s` plus a newline where `s` itself neither starts nor ends with
whitespace — such as `hello` and a newline — the text form equals `s`. -/
theorem text_form_strips_surrounding_whitespace (s : String)
    (h1 : startsWithSpace s = false) (h2 : endsWithSpace s = false) :
    resultStr { exitCode := 0, returncode := some 0, stdoutBuf := s ++ "\n", stderrBuf := "" }
      = s := by
  obtain ⟨l⟩ := s
  show pyStrip (String.mk l ++ "\n") = String.mk l
  unfold pyStrip
  rw [show (String.mk l ++ "\n").data = l ++ ['\n'] from rfl]
  cases l with
  | nil => rfl
  | cons c t =>
    have hc : pyIsSpaceChar c = false := h1
    obtain ⟨d, rest, hr⟩ : ∃ d rest, (c :: t).reverse = d :: rest := by
      cases hrev : (c :: t).reverse with
      | nil => exact absurd (congrArg List.length hrev) (by simp)
      | cons d rest => exact ⟨d, rest, rfl⟩
    have hlast : (c :: t).getLast? = some d := by
      rw [← List.head?_reverse, hr]
      rfl
    have hd : pyIsSpaceChar d = false := by
      have hm : endsWithSpace { data := c :: t } = pyIsSpaceChar d := by
        unfold endsWithSpace
        rw [show ({ data := c :: t } : String).data = c :: t from rfl, hlast]
      rw [← hm]
      exact h2
    have e1 : ((c :: t) ++ ['\n']).dropWhile pyIsSpaceChar = c :: (t ++ ['\n']) := by
      rw [List.cons_append, List.dropWhile_cons, hc]
      simp
    have e2 : (c :: (t ++ ['\n'])).reverse = '\n' :: (c :: t).reverse := by
      simp
    have e3 : ('\n' :: (c :: t).reverse).dropWhile pyIsSpaceChar
        = (c :: t).reverse.dropWhile pyIsSpaceChar := by
      rw [List.dropWhile_cons]
      norm_num [pyIsSpaceChar]
    have e4 : (c :: t).reverse.dropWhile pyIsSpaceChar = (c :: t).reverse := by
      rw [hr, List.dropWhile_cons, hd]
      simp
    rw [e1, e2, e3, e4, List.reverse_reverse]

/-- Witness for C7: a process writing `hello` plus a newline has text form
`hello`. -/
theorem text_form_strips_surrounding_whitespace_witness :
    resultStr { exitCode := 0, returncode := some 0, stdoutBuf := "hello\n", stderrBuf := "" }
      = "hello" := by
  exact text_form_strips_surrounding_whitespace "hello" rfl rfl

/-- Claim C8: completion is monotonic — `wait` lands in a completed state,
waiting again changes nothing, a completed state is untouched — and
each accessor returns the same stable value on repeated access. -/
theorem wait_idempotent_completion_monotonic (r : ResultState) :
    waitR (waitR r) = waitR r
      ∧ finished (waitR r) = true
      ∧ (finished r = true → waitR r = r)
      ∧ (codeProp r).1 = (codeProp (codeProp r).2).1
      ∧ (stdoutProp r).1 = (stdoutProp (stdoutProp r).2).1
      ∧ (stderrProp r).1 = (stderrProp (stderrProp r).2).1 := by
  obtain ⟨ec, rc, so, se⟩ := r
  cases rc <;> simp [waitR, finished, codeProp, stdoutProp, stderrProp]

/-- Witness for C8 at a completed result state. -/
theorem wait_idempotent_completion_monotonic_witness :
    waitR (waitR ⟨0, some 0, "out", "err"⟩) = waitR ⟨0, some 0, "out", "err"⟩
      ∧ finished (waitR ⟨0, some 0, "out", "err"⟩) = true
      ∧ waitR ⟨0, some 0, "out", "err"⟩ = ⟨0, some 0, "out", "err"⟩ := by
  have h := wait_idempotent_completion_monotonic ⟨0, some 0, "out", "err"⟩
  exact ⟨h.1, h.2.1, h.2.2.1 rfl⟩

/-- Counterexample for C9: the all-uppercase name `LS` is not intercepted
as `cd`, yet its lookup raises `ImportError` instead of yielding a command
descriptor, so not every other name yields a descriptor. -/
theorem uppercase_lookup_not_command_counterexample :
    isCommandLookup (aushGetitem "LS") = false
      ∧ ("LS" : String) ≠ "cd"
      ∧ aushGetitem "LS" = Lookup.importError "LS" := by
  refine ⟨rfl, by decide, rfl⟩

/-- Claim C9 as amended: the lookup of the reserved name `cd` yields the
in-process working-directory change (no command descriptor, no subprocess),
and every name that is neither `cd` nor all-uppercase yields a command
descriptor for that program; all-uppercase names instead resolve among the
module globals or raise `ImportError`. -/
theorem cd_intercepted_other_names_yield_commands (nm : String)
    (h1 : pyIsUpper nm = false) (h2 : nm ≠ "cd") :
    aushGetitem "cd" = Lookup.chdirBuiltin
      ∧ aushGetitem nm = Lookup.command (mkCommand [nm] []) := by
  refine ⟨rfl, ?_⟩
  simp [aushGetitem, h1, h2]

/-- Witness for C9 at the program name `git`. -/
theorem cd_intercepted_other_names_yield_commands_witness :
    aushGetitem "git" = Lookup.command (mkCommand ["git"] [])
      ∧ aushGetitem "cd" = Lookup.chdirBuiltin := by
  have h := cd_intercepted_other_names_yield_commands "git" rfl (by decide)
  exact ⟨h.2, h.1⟩

lemma foldl_convStep (l : Dict) (acc : List String × Dict) :
    l.foldl convStep acc = (acc.1 ++ (convertKwargs l).1, acc.2 ++ (convertKwargs l).2) := by
  induction l generalizing acc with
  | nil => simp [convertKwargs]
  | cons e t ih =>
    show t.foldl convStep (convStep acc e) = _
    rw [ih (convStep acc e)]
    have h2 : convertKwargs (e :: t) = t.foldl convStep (convStep ([], []) e) := rfl
    rw [h2, ih (convStep ([], []) e)]
    cases hk : underscoreKey e.1 <;> simp [convStep, hk]

lemma convert_fst_cons (e : String × PyVal) (t : Dict) :
    (convertKwargs (e :: t)).1
      = (if underscoreKey e.1 then [] else entryTokens e.1 e.2) ++ (convertKwargs t).1 := by
  show (t.foldl convStep (convStep ([], []) e)).1 = _
  rw [foldl_convStep t (convStep ([], []) e)]
  cases hk : underscoreKey e.1 <;> simp [convStep, hk]

lemma nonReservedOf_cons (e : String × PyVal) (t : Dict) :
    nonReservedOf (e :: t)
      = if underscoreKey e.1 then nonReservedOf t else e :: nonReservedOf t := by
  cases hk : underscoreKey e.1 <;> simp [nonReservedOf, List.filter_cons, hk]

lemma convert_fst_nonReserved (l : Dict) :
    (convertKwargs (nonReservedOf l)).1 = (convertKwargs l).1 := by
  induction l with
  | nil => rfl
  | cons e t ih =>
    cases hk : underscoreKey e.1 <;>
      simp [nonReservedOf_cons, convert_fst_cons, hk, ih]

lemma convert_fst_congr {a b : Dict} (h : nonReservedOf a = nonReservedOf b) :
    (convertKwargs a).1 = (convertKwargs b).1 := by
  rw [← convert_fst_nonReserved a, h, convert_fst_nonReserved b]

lemma nonReservedOf_filter (l : Dict) (q : String × PyVal → Bool)
    (hq : ∀ e, q e = false → underscoreKey e.1 = true) :
    nonReservedOf (l.filter q) = nonReservedOf l := by
  induction l with
  | nil => rfl
  | cons e t ih =>
    cases hqe : q e
    · have hk : underscoreKey e.1 = true := hq e hqe
      simp [List.filter_cons, hqe, nonReservedOf_cons, hk, ih]
    · simp [List.filter_cons, hqe, nonReservedOf_cons, ih]

lemma dhas_default_underscore (k : String) (h : dhas defaultKwargs k = true) :
    underscoreKey k = true := by
  simp [dhas, defaultKwargs] at h
  rcases h with h | h <;> { subst h; decide }

lemma nonReservedOf_append (x y : Dict) :
    nonReservedOf (x ++ y) = nonReservedOf x ++ nonReservedOf y := by
  simp [nonReservedOf]

lemma nonReservedOf_dmerge_default (l : Dict) :
    nonReservedOf (dmerge defaultKwargs l) = nonReservedOf l := by
  show nonReservedOf (defaultKwargs.map _ ++ l.filter _) = _
  rw [nonReservedOf_append]
  have h1 : nonReservedOf (defaultKwargs.map
      (fun e => (e.1, (dget? l e.1).getD e.2))) = [] := by
    simp [defaultKwargs, nonReservedOf, underscoreKey]
  rw [h1, List.nil_append]
  exact nonReservedOf_filter l _ (fun e he => dhas_default_underscore e.1 (by simpa using he))

lemma nonReservedOf_dremove (l : Dict) (k : String) (hk : underscoreKey k = true) :
    nonReservedOf (dremove l k) = nonReservedOf l := by
  apply nonReservedOf_filter
  intro e he
  have : e.1 = k := by simpa using he
  rw [this]
  exact hk

lemma dget?_cons (e : String × PyVal) (t : Dict) (k : String) :
    dget? (e :: t) k = if e.1 == k then some e.2 else dget? t k := by
  cases hek : e.1 == k <;> simp [dget?, List.find?_cons, hek]

lemma dset_cons (e : String × PyVal) (t : Dict) (k : String) (v : PyVal) :
    dset (e :: t) k v = (if e.1 == k then (e.1, v) else e) :: dset t k v := rfl

lemma dget?_dset_ne (d : Dict) (k : String) (v : PyVal) (k2 : String) (h : k2 ≠ k) :
    dget? (dset d k v) k2 = dget? d k2 := by
  induction d with
  | nil => rfl
  | cons e t ih =>
    rw [dset_cons]
    cases hek : e.1 == k
    · simp [hek, dget?_cons, ih]
    · have he : e.1 = k := by simpa using hek
      have hne : (e.1 == k2) = false := by
        rw [he]
        exact beq_eq_false_iff_ne.mpr (fun hc => h hc.symm)
      simp [hek, dget?_cons, hne, ih]

lemma nonReservedOf_dset_underscore (d : Dict) (k : String) (v : PyVal)
    (hk : underscoreKey k = true) :
    nonReservedOf (dset d k v) = nonReservedOf d := by
  induction d with
  | nil => rfl
  | cons e t ih =>
    show nonReservedOf ((if e.1 == k then (e.1, v) else e) :: dset t k v) = _
    cases hek : e.1 == k
    · simp [hek, nonReservedOf_cons, ih]
    · have he : e.1 = k := by simpa using hek
      have hu : underscoreKey e.1 = true := by rw [he]; exact hk
      simp [hek, nonReservedOf_cons, hu, ih]

lemma filter_dset_comm (d : Dict) (k : String) (v : PyVal) (p : String × PyVal → Bool)
    (hp : ∀ k2 v1 v2, p (k2, v1) = p (k2, v2)) :
    (dset d k v).filter p = dset (d.filter p) k v := by
  induction d with
  | nil => rfl
  | cons e t ih =>
    rw [dset_cons]
    have hpv : p (e.1, v) = p e := hp e.1 v e.2
    cases hek : e.1 == k <;> cases hpe : p e <;>
      simp [hek, List.filter_cons, hpe, hpv, ih, dset_cons]

lemma nonReservedOf_map_upd_dset (a b : Dict) (v : PyVal) :
    nonReservedOf (a.map (fun e => (e.1, (dget? (dset b "_env" v) e.1).getD e.2)))
      = nonReservedOf (a.map (fun e => (e.1, (dget? b e.1).getD e.2))) := by
  induction a with
  | nil => rfl
  | cons e t ih =>
    simp only [List.map_cons]
    cases hk : underscoreKey e.1
    · have hne : e.1 ≠ "_env" := by
        intro hcontra
        rw [hcontra] at hk
        exact absurd hk (by decide)
      simp [nonReservedOf_cons, hk, dget?_dset_ne b "_env" v e.1 hne, ih]
    · simp [nonReservedOf_cons, hk, ih]

lemma nonReservedOf_dmerge_dset_env (a b : Dict) (v : PyVal) :
    nonReservedOf (dmerge a (dset b "_env" v)) = nonReservedOf (dmerge a b) := by
  unfold dmerge
  rw [nonReservedOf_append, nonReservedOf_append]
  rw [nonReservedOf_map_upd_dset a b v]
  have hkeys : ∀ e : String × PyVal,
      (fun e : String × PyVal => !(dhas a e.1)) e
        = (fun e : String × PyVal => !(dhas a e.1)) e := fun _ => rfl
  rw [filter_dset_comm b "_env" v (fun e => !(dhas a e.1)) (fun _ _ _ => rfl)]
  rw [nonReservedOf_dset_underscore _ "_env" v (by decide)]

lemma envTransform_cases (kw : Dict) (osenv : List (String × String)) :
    envTransform kw osenv = kw ∨ ∃ v, envTransform kw osenv = dset kw "_env" v := by
  unfold envTransform
  cases hg : dget? kw "_env" with
  | none => exact Or.inl rfl
  | some v =>
    cases ht : pyTruthy v
    · left
      simp [ht]
    · cases v with
      | envMap m =>
          right
          exact ⟨PyVal.envMap (pyEnvMerge osenv m), by simp [ht]⟩
      | bool b => left; simp [ht]
      | int n => left; simp [ht]
      | str s => left; simp [ht]
      | none => left; simp [ht]
      | list vs => left; simp [ht]
      | pipe => left; simp [ht]
      | stream tag => left; simp [ht]

lemma nonReservedOf_invoke (c : Command) (kw : Dict) (osenv : List (String × String)) :
    nonReservedOf (dmerge defaultKwargs
        (dremove (dmerge c.kwargs (envTransform kw osenv)) "_check"))
      = nonReservedOf (dmerge c.kwargs kw) := by
  rw [nonReservedOf_dmerge_default, nonReservedOf_dremove _ _ (by decide)]
  rcases envTransform_cases kw osenv with h | ⟨v, h⟩
  · rw [h]
  · rw [h]
    exact nonReservedOf_dmerge_dset_env _ _ _

lemma invokeArgv_spec (c : Command) (args : List String) (kw : Dict)
    (osenv : List (String × String)) :
    invokeArgv c args kw osenv
      = c.command ++ args ++ (convertKwargs (dmerge c.kwargs kw)).1 := by
  show (c.command ++ args) ++ (convertKwargs (dmerge defaultKwargs
      (dremove (dmerge c.kwargs (envTransform kw osenv)) "_check"))).1
    = (c.command ++ args) ++ (convertKwargs (dmerge c.kwargs kw)).1
  exact congrArg _ (convert_fst_congr (nonReservedOf_invoke c kw osenv))

lemma dget?_eq_some_of_dhas (b : Dict) (k : String) (h : dhas b k = true) :
    ∃ w, dget? b k = some w := by
  induction b with
  | nil => simp [dhas] at h
  | cons e t ih =>
    cases hek : e.1 == k
    · have h2 : dhas t k = true := by simpa [dhas, hek] using h
      obtain ⟨w, hw⟩ := ih h2
      refine ⟨w, ?_⟩
      simp only [dget?, List.find?_cons, hek]
      exact hw
    · exact ⟨e.2, by simp [dget?, List.find?_cons, hek]⟩

lemma dget?_map_upd_none (a b : Dict) (k : String) (h : dhas a k = false) :
    dget? (a.map (fun e => (e.1, (dget? b e.1).getD e.2))) k = Option.none := by
  induction a with
  | nil => rfl
  | cons e t ih =>
    have hek : (e.1 == k) = false := by
      cases hcontra : e.1 == k
      · rfl
      · simp [dhas, hcontra] at h
    have h2 : dhas t k = false := by
      simp [dhas, hek] at h ⊢
      tauto
    simp only [List.map_cons, dget?, List.find?_cons, hek]
    exact ih h2

lemma dget?_filter_keep (b : Dict) (k : String) (q : String → Bool) (h : q k = true) :
    dget? (b.filter (fun e => q e.1)) k = dget? b k := by
  induction b with
  | nil => rfl
  | cons e t ih =>
    cases hek : e.1 == k
    · cases hq : q e.1 <;> simp [List.filter_cons, hq, dget?_cons, hek, ih]
    · have he : e.1 = k := by simpa using hek
      have hq : q e.1 = true := by rw [he]; exact h
      simp [List.filter_cons, hq, dget?_cons, hek]

lemma dget?_append (x y : Dict) (k : String) :
    dget? (x ++ y) k = (dget? x k).or (dget? y k) := by
  cases hf : List.find? (fun e => e.1 == k) x <;>
    simp [dget?, List.find?_append, hf]

lemma dget?_map_upd (a b : Dict) (k : String) :
    dget? (a.map (fun e => (e.1, (dget? b e.1).getD e.2)) : Dict) k
      = (dget? a k).map (fun v => (dget? b k).getD v) := by
  induction a with
  | nil => rfl
  | cons e t ih =>
    simp only [List.map_cons]
    rw [dget?_cons, dget?_cons]
    cases hek : e.1 == k
    · simp [hek, ih]
    · have he : e.1 = k := by simpa using hek
      simp [hek, he]

lemma dget?_dmerge_right (a b : Dict) (k : String) (h : dhas b k = true) :
    dget? (dmerge a b) k = dget? b k := by
  obtain ⟨w, hw⟩ := dget?_eq_some_of_dhas b k h
  show dget? (_ ++ _) k = _
  rw [dget?_append, dget?_map_upd, hw]
  cases hak : dget? a k with
  | some v => simp
  | none =>
    have ha : dhas a k = false := by
      cases hd : dhas a k
      · rfl
      · obtain ⟨w2, hw2⟩ := dget?_eq_some_of_dhas a k hd
        rw [hw2] at hak
        cases hak
    simp only [Option.map_none', Option.none_or]
    exact (dget?_filter_keep b k (fun s => !(dhas a s)) (by simp [ha])).trans hw

/-- Claim C5: the resolved argv of an invocation is the descriptor's
existing argv, then the positional arguments, then the translator's output
over the call-time options dict-merged over the baked-in ones; on a key
collision the merged mapping holds the call-time value, so only the
call-time tokens are contributed by the translator. -/
theorem invoke_appends_translated_options (c : Command) (args : List String)
    (kw : Dict) (osenv : List (String × String)) :
    invokeArgv c args kw osenv
        = c.command ++ args ++ (convertKwargs (dmerge c.kwargs kw)).1
      ∧ ∀ k, dhas kw k = true → dget? (dmerge c.kwargs kw) k = dget? kw k :=
  ⟨invokeArgv_spec c args kw osenv, fun k h => dget?_dmerge_right c.kwargs kw k h⟩

/-- Witness for C5: `git` invoked with a positional `status` and the option
`force=True`. -/
theorem invoke_appends_translated_options_witness :
    invokeArgv (mkCommand ["git"] []) ["status"] [("force", PyVal.bool true)] []
      = ["git", "status", "--force"] := by
  have h := (invoke_appends_translated_options (mkCommand ["git"] [])
    ["status"] [("force", PyVal.bool true)] []).1
  exact h.trans (by decide)

/-- Claim C6: extending a descriptor by a token yields a distinct new
descriptor whose argv is the original's argv plus the token (plus the
constructor's re-translation of the retained options); the original is
untouched — it is a pure value, and invoking it resolves exactly the argv
computed from its own fields, identical to the invocation of the extended
descriptor restricted to its own fields. -/
theorem extension_returns_new_descriptor (c : Command) (k : String)
    (args : List String) (kw : Dict) (osenv : List (String × String)) :
    getitemStr c k ≠ c
      ∧ (getitemStr c k).command = c.command ++ [k] ++ (convertKwargs c.kwargs).1
      ∧ invokeArgv c args kw osenv
          = c.command ++ args ++ (convertKwargs (dmerge c.kwargs kw)).1
      ∧ invokeArgv (getitemStr c k) args kw osenv
          = (getitemStr c k).command ++ args
              ++ (convertKwargs (dmerge (getitemStr c k).kwargs kw)).1 := by
  have hcheck : underscoreKey "_check" = true := by decide
  have h2 : (getitemStr c k).command = c.command ++ [k] ++ (convertKwargs c.kwargs).1 := by
    show (c.command ++ [k]) ++ (convertKwargs (dmerge defaultKwargs
        (dremove (("_check", c.check) :: c.kwargs) "_check"))).1
      = (c.command ++ [k]) ++ (convertKwargs c.kwargs).1
    refine congrArg _ (convert_fst_congr ?_)
    rw [nonReservedOf_dmerge_default, nonReservedOf_dremove _ _ hcheck,
      nonReservedOf_cons]
    simp [hcheck]
  refine ⟨?_, h2, invokeArgv_spec c args kw osenv,
    invokeArgv_spec (getitemStr c k) args kw osenv⟩
  intro heq
  have hcmd := congrArg Command.command heq
  rw [h2] at hcmd
  have hlen := congrArg List.length hcmd
  simp [List.length_append] at hlen

/-- Witness for C6: extending `git` by `remote`. -/
theorem extension_returns_new_descriptor_witness :
    getitemStr (mkCommand ["git"] []) "remote" ≠ mkCommand ["git"] []
      ∧ (getitemStr (mkCommand ["git"] []) "remote").command = ["git", "remote"] := by
  have h := extension_returns_new_descriptor (mkCommand ["git"] []) "remote" [] [] []
  exact ⟨h.1, h.2.1.trans (by decide)⟩

end Aush
